import Mathlib

/-!
Shallow embedding of the EXIM trade-analysis dashboard (src/app.py).

Modelling conventions:
* Numeric cells are rationals (ℚ); pandas NaN / missing is `Option`'s `none`.
* Calendar dates are day numbers (`Int`); pandas NaT is `none`.
* A raw spreadsheet is a `Cols` record saying which required columns are
  present (after header trimming) plus one `RawRow` per data row.  A raw
  numeric cell is `some q` when the text parses to `q` after stripping `$`
  and `,` (pandas `to_numeric` with coerce), `none` when missing or
  unparseable; a raw date cell is `some d` when parseable, `none` for NaT.
* `load_data` mirrors app.py lines 11-51: each cleaning step is guarded by
  an `if column present` check, so a missing column is tolerated there; the
  derived-price pass (lines 46-48) accesses QUANTITY and then VALUE(USD)
  unconditionally, which raises a pandas KeyError naming that column.  The
  `Except String` result models that: the error value is the column name.
* Filters (lines 71-87), groupby/agg (97-101), growth (116-130), the ASP
  ranking sort (141-146) and the pivot table (193-200) are embedded as list
  functions below; pandas groupby sorts group keys, which no claim depends
  on, so first-occurrence order (`dedup`) is used for the key list.
-/

namespace EximDash

/-- One raw data row of the sheet, fields already taken through the cell-level
parse that pandas applies (`none` = missing or unparseable cell). -/
structure RawRow where
  date       : Option Int
  buyer      : Option String
  seller     : Option String
  hs_code    : Option String
  industry   : Option String
  quantity   : Option ℚ
  value_usd  : Option ℚ
  unit_price : Option ℚ
deriving DecidableEq, Repr

/-- Which required columns the sheet has after header trimming (app.py line 16). -/
structure Cols where
  date       : Bool
  buyer      : Bool
  seller     : Bool
  hs_code    : Bool
  industry   : Bool
  quantity   : Bool
  value_usd  : Bool
  unit_price : Bool
deriving DecidableEq, Repr

/-- All eight required columns present. -/
def allCols : Cols := ⟨true, true, true, true, true, true, true, true⟩

/-- One row of the Normalized Table: QUANTITY and VALUE(USD) have been
defaulted with `fillna(0)` (app.py lines 24, 33), UNIT PRICE keeps its
missing values (line 42), ASP_COMPUTED is the derived price (lines 45-49). -/
structure Row where
  date         : Option Int
  buyer        : Option String
  seller       : Option String
  hs_code      : Option String
  industry     : Option String
  quantity     : ℚ
  value_usd    : ℚ
  unit_price   : Option ℚ
  asp_computed : Option ℚ
deriving DecidableEq, Repr

/-- Per-row effect of load_data's cleaning steps (app.py lines 19-49).  A
column that is absent contributes `none` (there is nothing to read); when
QUANTITY or VALUE(USD) is present, `fillna(0)` turns `none` into `0`.
ASP_COMPUTED starts as the UNIT PRICE column when present and otherwise as
all-NaN (line 45); rows where it is missing and QUANTITY > 0 are overwritten
with VALUE(USD)/QUANTITY (lines 46-49). -/
def normalizeRow (cols : Cols) (r : RawRow) : Row :=
  let q : ℚ := (if cols.quantity then r.quantity else none).getD 0
  let v : ℚ := (if cols.value_usd then r.value_usd else none).getD 0
  let up : Option ℚ := if cols.unit_price then r.unit_price else none
  { date       := if cols.date then r.date else none
    buyer      := if cols.buyer then r.buyer else none
    seller     := if cols.seller then r.seller else none
    hs_code    := if cols.hs_code then r.hs_code else none
    industry   := if cols.industry then r.industry else none
    quantity   := q
    value_usd  := v
    unit_price := up
    asp_computed :=
      match up with
      | some p => some p
      | none   => if 0 < q then some (v / q) else none }

/-- load_data (app.py lines 11-51).  Every cleaning step is guarded by an
`if column in df.columns` check, so missing columns pass through silently;
the only unguarded accesses are `df["QUANTITY"]` on line 46 and
`df.loc[..., "VALUE(USD)"]` on line 47, which raise a KeyError naming that
column (QUANTITY first, since line 46 runs before line 47). -/
def load_data (cols : Cols) (rows : List RawRow) : Except String (List Row) :=
  if cols.quantity = false then Except.error "QUANTITY"
  else if cols.value_usd = false then Except.error "VALUE(USD)"
  else Except.ok (rows.map (normalizeRow cols))

/-- The sidebar Filter Selection (app.py lines 61-67): four multiselect sets
and an optional inclusive date interval. -/
structure FilterSel where
  buyers     : List String
  hs_codes   : List String
  sellers    : List String
  industries : List String
  date_range : Option (Int × Int)
deriving DecidableEq, Repr

/-- The all-empty Filter Selection: every set empty, no date range. -/
def emptySel : FilterSel := ⟨[], [], [], [], none⟩

/-- One `isin` conjunct of the mask (app.py lines 74-81): skipped when the
multiselect list is empty (`if buyers:` on a falsy empty list), and a row
whose cell is NaN is never `isin` any set. -/
def memPass (allowed : List String) (v : Option String) : Bool :=
  allowed.isEmpty || v.any (fun s => allowed.contains s)

/-- The date conjunct of the mask (app.py lines 82-85): applied only when a
date interval is supplied, inclusive on both ends; a NaT date compares false
on both sides. -/
def datePass (dr : Option (Int × Int)) (d : Option Int) : Bool :=
  match dr with
  | none => true
  | some (a, b) => d.any (fun t => decide (a ≤ t) && decide (t ≤ b))

/-- The full boolean mask for one row (app.py lines 72-85). -/
def rowPass (sel : FilterSel) (r : Row) : Bool :=
  memPass sel.buyers r.buyer
    && memPass sel.hs_codes r.hs_code
    && memPass sel.sellers r.seller
    && memPass sel.industries r.industry
    && datePass sel.date_range r.date

/-- `df_filtered = df[mask]` (app.py line 87): the Filtered View. -/
def filterTable (sel : FilterSel) (tbl : List Row) : List Row :=
  tbl.filter (rowPass sel)

/-- Mean of a list of rationals, `none` on the empty list — pandas
`mean` skips NaN and yields NaN when nothing remains. -/
def optMean (vs : List ℚ) : Option ℚ :=
  if vs.isEmpty then none else some (vs.sum / (vs.length : ℚ))

/-- The distinct non-null values of the grouping column, in first-occurrence
order; pandas `groupby` drops rows whose key is NaN. -/
def groupKeys (key : Row → Option String) (tbl : List Row) : List String :=
  (tbl.filterMap key).dedup

/-- The member rows of one group. -/
def groupRows (key : Row → Option String) (k : String) (tbl : List Row) : List Row :=
  tbl.filter (fun r => key r == some k)

/-- One output row of the Group Summary (app.py lines 97-101). -/
structure GroupAgg where
  key         : String
  total_qty   : ℚ
  total_value : ℚ
  avg_asp     : Option ℚ
deriving DecidableEq, Repr

/-- The three aggregates of one group: sum of QUANTITY, sum of VALUE(USD),
and the NaN-skipping mean of ASP_COMPUTED (pandas `agg` with "sum", "sum",
"mean"). -/
def aggFor (key : Row → Option String) (tbl : List Row) (k : String) : GroupAgg :=
  let ms := groupRows key k tbl
  { key         := k
    total_qty   := (ms.map Row.quantity).sum
    total_value := (ms.map Row.value_usd).sum
    avg_asp     := optMean (ms.filterMap Row.asp_computed) }

/-- The Group Summary report (app.py lines 97-101): one aggregate row per
distinct non-null key. -/
def summary (key : Row → Option String) (tbl : List Row) : List GroupAgg :=
  (groupKeys key tbl).map (aggFor key tbl)

/-- Sum of a field over the rows whose date is parseable and at most `d`
(app.py lines 116-117: a NaT date compares false, so such rows are
excluded). -/
def cumSum (f : Row → ℚ) (tbl : List Row) (d : Int) : ℚ :=
  ((tbl.filter (fun r => r.date.any (fun t => decide (t ≤ d)))).map f).sum

/-- Cumulative growth percentage (app.py lines 119-130): NaN — modelled as
`none` — when the start-period sum is zero (falsy), the ratio formula
otherwise. -/
def growthPct (f : Row → ℚ) (tbl : List Row) (s e : Int) : Option ℚ :=
  let ds := cumSum f tbl s
  if ds = 0 then none else some ((cumSum f tbl e - ds) / ds * 100)

set_option linter.unusedVariables false in
/-- The Growth report as the dashboard computes it: lines 116-117 read `df`,
the unfiltered table, so the Filter Selection argument is never consulted. -/
def growthReport (tbl : List Row) (sel : FilterSel) (s e : Int) :
    Option ℚ × Option ℚ :=
  (growthPct Row.quantity tbl s e, growthPct Row.value_usd tbl s e)

/-- The unsorted ASP ranking groups (app.py lines 141-144): key and
NaN-skipping mean of ASP_COMPUTED. -/
def aspGroups (key : Row → Option String) (tbl : List Row) :
    List (String × Option ℚ) :=
  (groupKeys key tbl).map
    (fun k => (k, optMean ((groupRows key k tbl).filterMap Row.asp_computed)))

/-- Comparison used by `sort_values("ASP_COMPUTED", ascending=False)`:
descending by mean, with NaN (`none`) sorted last (pandas default
`na_position="last"`). -/
def aspLe (a b : String × Option ℚ) : Bool :=
  match a.2, b.2 with
  | some x, some y => decide (y ≤ x)
  | some _, none   => true
  | none,   some _ => false
  | none,   none   => true

/-- Insert into a list already ordered by `aspLe`. -/
def insertDesc (a : String × Option ℚ) :
    List (String × Option ℚ) → List (String × Option ℚ)
  | []     => [a]
  | b :: l => if aspLe a b then a :: b :: l else b :: insertDesc a l

/-- Stable insertion sort by `aspLe`. -/
def sortDesc : List (String × Option ℚ) → List (String × Option ℚ)
  | []     => []
  | a :: l => insertDesc a (sortDesc l)

/-- The ASP ranking report (app.py lines 141-146): group means sorted
descending with undefined means last. -/
def asp_summary (key : Row → Option String) (tbl : List Row) :
    List (String × Option ℚ) :=
  sortDesc (aspGroups key tbl)

/-- The (seller, HS code) pair of a row when both are non-null; pandas
`pivot_table` drops rows with a NaN key on either axis. -/
def pairKey (r : Row) : Option (String × String) :=
  match r.seller, r.hs_code with
  | some s, some h => some (s, h)
  | _, _ => none

/-- The (seller, HS code) pairs observed in the table. -/
def pairKeys (tbl : List Row) : List (String × String) :=
  (tbl.filterMap pairKey).dedup

/-- The rows contributing to one pivot cell. -/
def cellRows (tbl : List Row) (s h : String) : List Row :=
  tbl.filter (fun r => pairKey r == some (s, h))

/-- One cell of the competitor cross-tab (app.py lines 193-200):
`aggfunc="sum"` over the observed (seller, HS code) groups, reindexed densely
with `fill_value=0` for combinations that never occur. -/
def pivotCell (tbl : List Row) (s h : String) : ℚ :=
  if (s, h) ∈ pairKeys tbl then ((cellRows tbl s h).map Row.value_usd).sum
  else 0

/-! Concrete sample data used by witnesses and counterexamples. -/

/-- A fully-populated raw row: unit price present. -/
def sampleRaw : RawRow :=
  ⟨some 10, some "B", some "S", some "H", some "I", some 5, some 50, some 7⟩

/-- The normalized form of `sampleRaw` under all columns present. -/
def sampleRow : Row := normalizeRow allCols sampleRaw

/-- Column set with BUYER missing and everything else present. -/
def noBuyerCols : Cols := ⟨true, false, true, true, true, true, true, true⟩

/-- Raw row whose QUANTITY cell parses to a negative number. -/
def negRaw : RawRow :=
  ⟨some 0, some "B", some "S", some "H", some "I", some (-5), some 20, none⟩

/-! Basic facts about `load_data`. -/

/-- Successful loads happen exactly when QUANTITY and VALUE(USD) are present,
and then the whole input is normalized row by row. -/
theorem load_data_ok (cols : Cols) (rows : List RawRow) (tbl : List Row)
    (h : load_data cols rows = Except.ok tbl) :
    cols.quantity = true ∧ cols.value_usd = true
      ∧ tbl = rows.map (normalizeRow cols) := by
  unfold load_data at h
  by_cases hq : cols.quantity = false
  · rw [if_pos hq] at h; exact absurd h (by simp)
  · rw [if_neg hq] at h
    by_cases hv : cols.value_usd = false
    · rw [if_pos hv] at h; exact absurd h (by simp)
    · rw [if_neg hv] at h
      refine ⟨by simpa using hq, by simpa using hv, ?_⟩
      simpa using h.symm

/-- The derived-price rule, per normalized row, for any column set. -/
theorem normalizeRow_asp (cols : Cols) (r0 : RawRow) :
    ((normalizeRow cols r0).asp_computed.isSome ↔
      ((normalizeRow cols r0).unit_price.isSome ∨ 0 < (normalizeRow cols r0).quantity))
    ∧ (∀ p, (normalizeRow cols r0).unit_price = some p →
        (normalizeRow cols r0).asp_computed = some p)
    ∧ ((normalizeRow cols r0).unit_price = none → 0 < (normalizeRow cols r0).quantity →
        (normalizeRow cols r0).asp_computed =
          some ((normalizeRow cols r0).value_usd / (normalizeRow cols r0).quantity))
    ∧ ((normalizeRow cols r0).unit_price = none → (normalizeRow cols r0).quantity ≤ 0 →
        (normalizeRow cols r0).asp_computed = none) := by
  simp only [normalizeRow]
  rcases hup : (if cols.unit_price then r0.unit_price else none) with _ | p
  · rcases lt_or_le 0 ((if cols.quantity then r0.quantity else none).getD 0) with hq | hq
    · simp [hup, hq]
    · simp [hup, hq, not_lt.mpr hq]
  · simp [hup]

/-- Claim C1: in every table `load_data` returns, `asp_computed` is defined
iff `unit_price` is defined or `quantity > 0`; it equals `unit_price` exactly
whenever that is defined; it equals `value_usd / quantity` when `unit_price`
is undefined and `quantity > 0`; and it stays undefined when `unit_price` is
undefined and `quantity ≤ 0`. -/
theorem c1_asp_fallback (cols : Cols) (rows : List RawRow) (tbl : List Row)
    (h : load_data cols rows = Except.ok tbl) (r : Row) (hr : r ∈ tbl) :
    (r.asp_computed.isSome ↔ (r.unit_price.isSome ∨ 0 < r.quantity))
    ∧ (∀ p, r.unit_price = some p → r.asp_computed = some p)
    ∧ (r.unit_price = none → 0 < r.quantity →
        r.asp_computed = some (r.value_usd / r.quantity))
    ∧ (r.unit_price = none → r.quantity ≤ 0 → r.asp_computed = none) := by
  obtain ⟨-, -, htbl⟩ := load_data_ok cols rows tbl h
  subst htbl
  obtain ⟨r0, -, rfl⟩ := List.mem_map.mp hr
  exact normalizeRow_asp cols r0

/-- Witness for C1 at a concrete one-row spreadsheet. -/
theorem c1_asp_fallback_witness :
    (sampleRow.asp_computed.isSome ↔ (sampleRow.unit_price.isSome ∨ 0 < sampleRow.quantity))
    ∧ (∀ p, sampleRow.unit_price = some p → sampleRow.asp_computed = some p)
    ∧ (sampleRow.unit_price = none → 0 < sampleRow.quantity →
        sampleRow.asp_computed = some (sampleRow.value_usd / sampleRow.quantity))
    ∧ (sampleRow.unit_price = none → sampleRow.quantity ≤ 0 →
        sampleRow.asp_computed = none) :=
  c1_asp_fallback allCols [sampleRaw] [sampleRow] rfl sampleRow (by simp)

/-- Claim C2 counterexample: a sheet lacking the required BUYER column is NOT
a fatal load error — `load_data` returns a table anyway. -/
theorem c2_missing_column_tolerated :
    noBuyerCols.buyer = false
    ∧ load_data noBuyerCols [sampleRaw]
        = Except.ok [normalizeRow noBuyerCols sampleRaw] :=
  ⟨rfl, rfl⟩

/-- Claim C2 (amended): `load_data` raises a fatal error naming the missing
column only for QUANTITY and VALUE(USD) — the two columns the derived-price
pass reads unconditionally, QUANTITY checked first — and with both of those
present it returns the full normalized table even when other required
columns are missing. -/
theorem c2_fatal_only_qty_value (cols : Cols) (rows : List RawRow) :
    (cols.quantity = false → load_data cols rows = Except.error "QUANTITY")
    ∧ (cols.quantity = true → cols.value_usd = false →
        load_data cols rows = Except.error "VALUE(USD)")
    ∧ (cols.quantity = true → cols.value_usd = true →
        load_data cols rows = Except.ok (rows.map (normalizeRow cols))) := by
  refine ⟨fun hq => ?_, fun hq hv => ?_, fun hq hv => ?_⟩
  · simp [load_data, hq]
  · simp [load_data, hq, hv]
  · simp [load_data, hq, hv]

/-- Claim C5: the all-empty Filter Selection (every multiselect empty, no
date interval) leaves the table unchanged. -/
theorem c5_empty_filter_identity (tbl : List Row) :
    filterTable emptySel tbl = tbl := by
  rw [filterTable, List.filter_eq_self]
  intro r _
  rfl

/-- Claim C9 counterexample: a raw quantity cell that parses to a negative
number survives normalization, so the loaded table is not always
non-negative. -/
theorem c9_negative_quantity_kept :
    load_data allCols [negRaw] = Except.ok [normalizeRow allCols negRaw]
    ∧ (normalizeRow allCols negRaw).quantity < 0 :=
  ⟨rfl, by norm_num [normalizeRow, allCols, negRaw]⟩

/-- Claim C9 (amended): QUANTITY and VALUE(USD) default to 0 when missing or
unparseable, and every loaded record has non-negative quantity and value
provided every parseable raw quantity and value cell is non-negative (the
loader itself never enforces a sign). -/
theorem c9_nonneg_when_source_nonneg (cols : Cols) (rows : List RawRow)
    (tbl : List Row) (h : load_data cols rows = Except.ok tbl)
    (hq : ∀ r0 ∈ rows, 0 ≤ r0.quantity.getD 0)
    (hv : ∀ r0 ∈ rows, 0 ≤ r0.value_usd.getD 0) :
    (∀ r ∈ tbl, 0 ≤ r.quantity ∧ 0 ≤ r.value_usd)
    ∧ (∀ r0 : RawRow, r0.quantity = none → (normalizeRow cols r0).quantity = 0)
    ∧ (∀ r0 : RawRow, r0.value_usd = none → (normalizeRow cols r0).value_usd = 0) := by
  obtain ⟨-, -, htbl⟩ := load_data_ok cols rows tbl h
  subst htbl
  refine ⟨?_, ?_, ?_⟩
  · intro r hr
    obtain ⟨r0, hr0, rfl⟩ := List.mem_map.mp hr
    constructor
    · show 0 ≤ (if cols.quantity then r0.quantity else none).getD 0
      rcases cols.quantity with _ | _
      · simp
      · simpa using hq r0 hr0
    · show 0 ≤ (if cols.value_usd then r0.value_usd else none).getD 0
      rcases cols.value_usd with _ | _
      · simp
      · simpa using hv r0 hr0
  · intro r0 h0
    show (if cols.quantity then r0.quantity else none).getD 0 = 0
    rcases cols.quantity with _ | _ <;> simp [h0]
  · intro r0 h0
    show (if cols.value_usd then r0.value_usd else none).getD 0 = 0
    rcases cols.value_usd with _ | _ <;> simp [h0]

/-- Witness for the amended C9 at a concrete one-row spreadsheet. -/
theorem c9_nonneg_when_source_nonneg_witness :
    (∀ r ∈ [sampleRow], 0 ≤ r.quantity ∧ 0 ≤ r.value_usd)
    ∧ (∀ r0 : RawRow, r0.quantity = none → (normalizeRow allCols r0).quantity = 0)
    ∧ (∀ r0 : RawRow, r0.value_usd = none → (normalizeRow allCols r0).value_usd = 0) :=
  c9_nonneg_when_source_nonneg allCols [sampleRaw] [sampleRow] rfl
    (by decide) (by decide)

/-- Claim C3: growth is computed from the unfiltered table (the Filter
Selection never changes it), equals the cumulative ratio formula when the
start-period sum is nonzero, and is "not available" (`none`) when that
denominator is exactly zero — for quantity and for value alike. -/
theorem c3_growth_global_and_guarded (tbl : List Row) (sel sel' : FilterSel)
    (s e : Int) :
    growthReport tbl sel s e = growthReport tbl sel' s e
    ∧ (cumSum Row.quantity tbl s = 0 → (growthReport tbl sel s e).1 = none)
    ∧ (cumSum Row.quantity tbl s ≠ 0 →
        (growthReport tbl sel s e).1 =
          some ((cumSum Row.quantity tbl e - cumSum Row.quantity tbl s)
            / cumSum Row.quantity tbl s * 100))
    ∧ (cumSum Row.value_usd tbl s = 0 → (growthReport tbl sel s e).2 = none)
    ∧ (cumSum Row.value_usd tbl s ≠ 0 →
        (growthReport tbl sel s e).2 =
          some ((cumSum Row.value_usd tbl e - cumSum Row.value_usd tbl s)
            / cumSum Row.value_usd tbl s * 100)) := by
  refine ⟨rfl, ?_, ?_, ?_, ?_⟩ <;> intro h <;> simp [growthReport, growthPct, h]

/-- A multiselect conjunct passes exactly when the set is empty (no
constraint) or the cell is a present value belonging to the set. -/
theorem memPass_iff (allowed : List String) (v : Option String) :
    memPass allowed v = true ↔ (allowed ≠ [] → ∃ s, v = some s ∧ s ∈ allowed) := by
  cases allowed with
  | nil => simp [memPass]
  | cons a as =>
    cases v with
    | none => simp [memPass, Option.any]
    | some x => simp [memPass, Option.any, List.contains]

/-- The date conjunct passes exactly when no interval was supplied or the
date is present and inside the inclusive interval. -/
theorem datePass_iff (dr : Option (Int × Int)) (d : Option Int) :
    datePass dr d = true ↔
      (∀ a b, dr = some (a, b) → ∃ t, d = some t ∧ a ≤ t ∧ t ≤ b) := by
  cases dr with
  | none => simp [datePass]
  | some p =>
    obtain ⟨a, b⟩ := p
    cases d with
    | none => simp [datePass, Option.any]
    | some t => simp [datePass, Option.any]

/-- Claim C4: the Filtered View is a subsequence of the table in original
order, its members are exactly the rows satisfying the conjunction of the
supplied predicates (empty sets skipped, the inclusive date test applied
only when an interval was supplied and failing on missing dates), and it
keeps each passing row with its original multiplicity. -/
theorem c4_filter_characterization (sel : FilterSel) (tbl : List Row) :
    (filterTable sel tbl).Sublist tbl
    ∧ (∀ r, r ∈ filterTable sel tbl ↔
        r ∈ tbl
        ∧ (sel.buyers ≠ [] → ∃ s, r.buyer = some s ∧ s ∈ sel.buyers)
        ∧ (sel.hs_codes ≠ [] → ∃ s, r.hs_code = some s ∧ s ∈ sel.hs_codes)
        ∧ (sel.sellers ≠ [] → ∃ s, r.seller = some s ∧ s ∈ sel.sellers)
        ∧ (sel.industries ≠ [] → ∃ s, r.industry = some s ∧ s ∈ sel.industries)
        ∧ (∀ a b, sel.date_range = some (a, b) →
            ∃ t, r.date = some t ∧ a ≤ t ∧ t ≤ b))
    ∧ (∀ r, (filterTable sel tbl).count r
        = if rowPass sel r = true then tbl.count r else 0) := by
  refine ⟨List.filter_sublist tbl, ?_, ?_⟩
  · intro r
    rw [filterTable, List.mem_filter]
    constructor
    · rintro ⟨hmem, hpass⟩
      rw [rowPass] at hpass
      simp only [Bool.and_eq_true] at hpass
      obtain ⟨⟨⟨⟨h1, h2⟩, h3⟩, h4⟩, h5⟩ := hpass
      exact ⟨hmem, (memPass_iff _ _).mp h1, (memPass_iff _ _).mp h2,
        (memPass_iff _ _).mp h3, (memPass_iff _ _).mp h4, (datePass_iff _ _).mp h5⟩
    · rintro ⟨hmem, h1, h2, h3, h4, h5⟩
      refine ⟨hmem, ?_⟩
      rw [rowPass]
      simp only [Bool.and_eq_true]
      exact ⟨⟨⟨⟨(memPass_iff _ _).mpr h1, (memPass_iff _ _).mpr h2⟩,
        (memPass_iff _ _).mpr h3⟩, (memPass_iff _ _).mpr h4⟩,
        (datePass_iff _ _).mpr h5⟩
  · intro r
    rw [filterTable]
    by_cases hp : rowPass sel r = true
    · rw [if_pos hp, List.count_filter hp]
    · rw [if_neg hp]
      refine List.count_eq_zero.mpr ?_
      intro hmem
      exact hp (List.mem_filter.mp hmem).2

/-- Claim C6: in the Group Summary, a group's Avg_ASP is the mean of
`asp_computed` over just the member rows where it is defined — `none`
(not 0) when no member has a defined value, and sum-over-defined divided by
count-of-defined otherwise. -/
theorem c6_group_mean_excludes_missing (key : Row → Option String)
    (tbl : List Row) (g : GroupAgg) (hg : g ∈ summary key tbl) :
    ((groupRows key g.key tbl).filterMap Row.asp_computed = [] →
      g.avg_asp = none)
    ∧ ((groupRows key g.key tbl).filterMap Row.asp_computed ≠ [] →
      g.avg_asp =
        some (((groupRows key g.key tbl).filterMap Row.asp_computed).sum
          / (((groupRows key g.key tbl).filterMap Row.asp_computed).length : ℚ))) := by
  obtain ⟨k, hk, rfl⟩ := List.mem_map.mp hg
  constructor
  · intro hnil
    simp only [aggFor] at hnil ⊢
    simp [optMean, hnil]
  · intro hne
    simp only [aggFor] at hne ⊢
    simp [optMean, hne]

/-- The spec's Scenario B row: no unit price, zero quantity, value 100. -/
def bRow : Row :=
  ⟨some 0, some "B", none, none, none, 0, 100, none, none⟩

/-- The Group Summary row Scenario B produces. -/
def bGroup : GroupAgg := ⟨"B", 0, 100, none⟩

/-- Witness for C6 on the spec's Scenario B table: the only group's mean is
"not available", not 0. -/
theorem c6_group_mean_excludes_missing_witness :
    ((groupRows Row.buyer bGroup.key [bRow]).filterMap Row.asp_computed = [] →
      bGroup.avg_asp = none)
    ∧ ((groupRows Row.buyer bGroup.key [bRow]).filterMap Row.asp_computed ≠ [] →
      bGroup.avg_asp =
        some (((groupRows Row.buyer bGroup.key [bRow]).filterMap Row.asp_computed).sum
          / (((groupRows Row.buyer bGroup.key [bRow]).filterMap Row.asp_computed).length : ℚ))) :=
  c6_group_mean_excludes_missing Row.buyer [bRow] bGroup
    (by simp [summary, groupKeys, aggFor, groupRows, optMean, bRow, bGroup])

/-- A pivot cell has contributing rows exactly when its (seller, HS code)
pair was observed. -/
theorem cellRows_ne_nil_iff (tbl : List Row) (s h : String) :
    cellRows tbl s h ≠ [] ↔ (s, h) ∈ pairKeys tbl := by
  rw [pairKeys, List.mem_dedup, List.mem_filterMap, cellRows, Ne,
    List.filter_eq_nil_iff]
  push_neg
  constructor
  · rintro ⟨r, hr, hpk⟩
    exact ⟨r, hr, by simpa using hpk⟩
  · rintro ⟨r, hr, hpk⟩
    exact ⟨r, hr, by simp [hpk]⟩

/-- Claim C8: in the competitor cross-tab, a (seller, HS code) pair that
appears in no row of the Filtered View gets the dense fill value 0, and a
pair that does appear gets the sum of VALUE(USD) over its matching rows. -/
theorem c8_pivot_dense_zero_fill (tbl : List Row) (sel : FilterSel)
    (s h : String) :
    (cellRows (filterTable sel tbl) s h = [] →
      pivotCell (filterTable sel tbl) s h = 0)
    ∧ (cellRows (filterTable sel tbl) s h ≠ [] →
      pivotCell (filterTable sel tbl) s h
        = ((cellRows (filterTable sel tbl) s h).map Row.value_usd).sum) := by
  constructor
  · intro hnil
    rw [pivotCell, if_neg]
    intro hmem
    exact (cellRows_ne_nil_iff _ s h).mpr hmem hnil
  · intro hne
    rw [pivotCell, if_pos ((cellRows_ne_nil_iff _ s h).mp hne)]

/-- Splitting a filtered sum along two disjoint predicates. -/
theorem sum_filter_or_disjoint (l : List Row) (f : Row → ℚ) (p q : Row → Bool)
    (hd : ∀ r, p r = true → q r = false) :
    ((l.filter (fun r => p r || q r)).map f).sum
      = ((l.filter p).map f).sum + ((l.filter q).map f).sum := by
  induction l with
  | nil => simp
  | cons a l ih =>
    by_cases hp : p a = true
    · have hq := hd a hp
      simp only [List.filter_cons, hp, hq, Bool.true_or, if_pos, if_neg,
        Bool.false_eq_true, not_false_eq_true, List.map_cons, List.sum_cons, ih]
      ring
    · have hp' : p a = false := by simpa using hp
      by_cases hq : q a = true
      · simp only [List.filter_cons, hp', hq, Bool.false_or, if_pos, if_neg,
          Bool.false_eq_true, not_false_eq_true, List.map_cons, List.sum_cons, ih]
        ring
      · have hq' : q a = false := by simpa using hq
        simp only [List.filter_cons, hp', hq', Bool.false_or, if_neg,
          Bool.false_eq_true, not_false_eq_true, ih]

/-- Summing group sums over a duplicate-free key list equals one filtered sum
over the rows whose key belongs to the list. -/
theorem sum_groups_eq_sum_mem (tbl : List Row) (key : Row → Option String)
    (f : Row → ℚ) :
    ∀ ks : List String, ks.Nodup →
      ((ks.map (fun k => ((tbl.filter (fun r => key r == some k)).map f).sum)).sum)
        = ((tbl.filter (fun r => (key r).any (fun s => ks.contains s))).map f).sum := by
  intro ks
  induction ks with
  | nil =>
    intro _
    rw [List.map_nil, List.sum_nil]
    have h0 : tbl.filter
        (fun r => (key r).any (fun s => ([] : List String).contains s)) = [] := by
      apply List.filter_eq_nil_iff.mpr
      intro r _
      cases key r <;> simp [Option.any]
    rw [h0, List.map_nil, List.sum_nil]
  | cons k ks ih =>
    intro hnd
    rw [List.nodup_cons] at hnd
    obtain ⟨hk, hnd'⟩ := hnd
    rw [List.map_cons, List.sum_cons, ih hnd']
    have hdisj : ∀ r, (key r == some k) = true →
        ((key r).any (fun s => ks.contains s)) = false := by
      intro r hr
      rw [beq_iff_eq] at hr
      rw [hr]
      simp only [Option.any]
      rw [Bool.eq_false_iff]
      intro hc
      exact hk (by simpa [List.contains] using hc)
    rw [← sum_filter_or_disjoint tbl f
      (fun r => key r == some k) (fun r => (key r).any (fun s => ks.contains s))
      hdisj]
    have hfc : tbl.filter
          (fun r => key r == some k || (key r).any (fun s => ks.contains s))
        = tbl.filter (fun r => (key r).any (fun s => (k :: ks).contains s)) := by
      apply List.filter_congr
      intro r _
      cases hkr : key r with
      | none => simp [Option.any]
      | some s =>
        simp only [Option.any, List.contains_cons]
        rfl
    rw [hfc]

/-- Claim C7: the Group Summary has one row per distinct non-null key, each
output group's key is carried by some table row (rows whose key is missing
produce no group), and the per-group quantity totals add up to the quantity
sum over the rows with a present key. -/
theorem c7_totals_partition (key : Row → Option String) (tbl : List Row) :
    ((summary key tbl).map GroupAgg.key).Nodup
    ∧ (∀ g ∈ summary key tbl, ∃ r ∈ tbl, key r = some g.key)
    ∧ ((summary key tbl).map GroupAgg.total_qty).sum
        = ((tbl.filter (fun r => (key r).isSome)).map Row.quantity).sum := by
  refine ⟨?_, ?_, ?_⟩
  · have hkeys : (summary key tbl).map GroupAgg.key = (groupKeys key tbl).map id := by
      rw [summary, List.map_map]
      apply List.map_congr_left
      intro k _
      rfl
    rw [hkeys, List.map_id]
    exact List.nodup_dedup _
  · intro g hg
    obtain ⟨k, hk, rfl⟩ := List.mem_map.mp hg
    have hk' : k ∈ tbl.filterMap key := List.mem_dedup.mp hk
    obtain ⟨r, hr, hkr⟩ := List.mem_filterMap.mp hk'
    exact ⟨r, hr, hkr⟩
  · rw [summary, List.map_map]
    have hmap : (groupKeys key tbl).map (GroupAgg.total_qty ∘ aggFor key tbl)
        = (groupKeys key tbl).map
            (fun k => ((tbl.filter (fun r => key r == some k)).map Row.quantity).sum) := by
      apply List.map_congr_left
      intro k _
      rfl
    rw [hmap, sum_groups_eq_sum_mem tbl key Row.quantity (groupKeys key tbl)
      (List.nodup_dedup _)]
    have hfc : tbl.filter
          (fun r => (key r).any (fun s => (groupKeys key tbl).contains s))
        = tbl.filter (fun r => (key r).isSome) := by
      apply List.filter_congr
      intro r hr
      cases hkr : key r with
      | none => simp [Option.any]
      | some s =>
        simp only [Option.any, Option.isSome_some]
        have hs : s ∈ groupKeys key tbl :=
          List.mem_dedup.mpr (List.mem_filterMap.mpr ⟨r, hr, hkr⟩)
        simpa [List.contains] using hs
    rw [hfc]

/-- The ranking comparison is total. -/
theorem aspLe_total (a b : String × Option ℚ) :
    aspLe a b = true ∨ aspLe b a = true := by
  rcases a with ⟨ka, va⟩
  rcases b with ⟨kb, vb⟩
  rcases va with _ | x <;> rcases vb with _ | y <;> simp [aspLe]
  exact le_total y x

/-- The ranking comparison is transitive. -/
theorem aspLe_trans {a b c : String × Option ℚ} (h1 : aspLe a b = true)
    (h2 : aspLe b c = true) : aspLe a c = true := by
  rcases a with ⟨ka, va⟩
  rcases b with ⟨kb, vb⟩
  rcases c with ⟨kc, vc⟩
  rcases va with _ | x <;> rcases vb with _ | y <;> rcases vc with _ | z <;>
    simp_all [aspLe]
  exact le_trans h2 h1

/-- A group with no defined mean never sorts before one with a defined mean. -/
theorem aspLe_none_left {a b : String × Option ℚ} (h : aspLe a b = true)
    (ha : a.2 = none) : b.2 = none := by
  rcases a with ⟨ka, va⟩
  rcases b with ⟨kb, vb⟩
  simp only at ha
  subst ha
  rcases vb with _ | v
  · rfl
  · simp [aspLe] at h

/-- Inserting keeps exactly the old entries plus the new one. -/
theorem insertDesc_perm (a : String × Option ℚ) (l : List (String × Option ℚ)) :
    (insertDesc a l).Perm (a :: l) := by
  induction l with
  | nil => exact List.Perm.refl _
  | cons b l ih =>
    by_cases hab : aspLe a b = true
    · simp only [insertDesc, if_pos hab]
      exact List.Perm.refl _
    · simp only [insertDesc, if_neg hab]
      exact (ih.cons b).trans (List.Perm.swap a b l)

/-- The ranking sort permutes its input. -/
theorem sortDesc_perm (l : List (String × Option ℚ)) : (sortDesc l).Perm l := by
  induction l with
  | nil => exact List.Perm.refl _
  | cons a l ih =>
    simp only [sortDesc]
    exact (insertDesc_perm a (sortDesc l)).trans (ih.cons a)

/-- Inserting into an `aspLe`-ordered list keeps it ordered. -/
theorem insertDesc_pairwise (a : String × Option ℚ)
    (l : List (String × Option ℚ))
    (h : l.Pairwise (fun x y => aspLe x y = true)) :
    (insertDesc a l).Pairwise (fun x y => aspLe x y = true) := by
  induction l with
  | nil => simp [insertDesc]
  | cons b l ih =>
    rw [List.pairwise_cons] at h
    obtain ⟨hb, hl⟩ := h
    by_cases hab : aspLe a b = true
    · simp only [insertDesc, if_pos hab]
      rw [List.pairwise_cons]
      refine ⟨?_, List.pairwise_cons.mpr ⟨hb, hl⟩⟩
      intro c hc
      rcases List.mem_cons.mp hc with rfl | hc'
      · exact hab
      · exact aspLe_trans hab (hb c hc')
    · simp only [insertDesc, if_neg hab]
      rw [List.pairwise_cons]
      refine ⟨?_, ih hl⟩
      intro c hc
      have hc' : c ∈ a :: l := (insertDesc_perm a l).mem_iff.mp hc
      rcases List.mem_cons.mp hc' with heq | hc''
      · subst heq
        rcases aspLe_total c b with h' | h'
        · exact absurd h' hab
        · exact h'
      · exact hb c hc''

/-- The ranking sort orders its output by `aspLe`. -/
theorem sortDesc_pairwise (l : List (String × Option ℚ)) :
    (sortDesc l).Pairwise (fun x y => aspLe x y = true) := by
  induction l with
  | nil => simp [sortDesc]
  | cons a l ih =>
    simp only [sortDesc]
    exact insertDesc_pairwise a (sortDesc l) ih

/-- Claim C10: the ASP ranking keeps every group (the sorted output is a
permutation of the group means), is ordered descending by mean with
undefined means last, and hence every group with an undefined mean sits
after every group with a defined one. -/
theorem c10_undefined_means_rank_last (key : Row → Option String)
    (tbl : List Row) :
    (asp_summary key tbl).Perm (aspGroups key tbl)
    ∧ (asp_summary key tbl).Pairwise (fun a b => aspLe a b = true)
    ∧ (∀ i j : Fin (asp_summary key tbl).length, i < j →
        ((asp_summary key tbl).get i).2 = none →
        ((asp_summary key tbl).get j).2 = none) := by
  refine ⟨sortDesc_perm _, sortDesc_pairwise _, ?_⟩
  intro i j hij hi
  have hR := List.pairwise_iff_get.mp (sortDesc_pairwise (aspGroups key tbl)) i j hij
  exact aspLe_none_left hR hi

end EximDash
